import Mathlib

/-!
Verification development for `downscale_tiles.py`, an XYZ slippy-map tile
downscaler.  The Python source is shallowly embedded: pure computations become
Lean functions, the image codec (PIL) is modelled by explicit pixel-buffer
operations or passed in as an environment (`decode`), the filesystem is an
explicit value threaded through the level driver, and `sys.exit(1)` becomes an
exit code in the result.  Python `int` arithmetic on possibly negative values
is rendered with `Int`, whose `%` (`Int.emod`) and `/` (`Int.ediv`) agree with
Python `%` and `//` for the positive divisor 2 used throughout.
-/

namespace Downscale

/-- One RGBA pixel value.  Channel ranges are irrelevant to the proved
properties; alpha 0 means fully transparent. -/
structure RGBA where
  r : Nat
  g : Nat
  b : Nat
  a : Nat
  deriving DecidableEq, Repr

/-- An in-memory decoded bitmap in RGBA mode: width, height and a pixel
lookup.  Models a PIL `Image` after conversion to RGBA mode. -/
structure Img where
  width : Nat
  height : Nat
  pixel : Nat → Nat → RGBA

/-- A discovered source tile `(x, y, path)` as appended by the scanner
(`tiles.append((x, y, tile_path))`, source line 130). -/
structure SourceTile where
  x : Int
  y : Int
  path : String
  deriving DecidableEq, Repr

/-- Quadrant index of a source tile (source lines 45-47):
`quadrant_x = x % 2`, `quadrant_y = y % 2`, `quadrant = quadrant_x + quadrant_y * 2`.
Python `%` with positive modulus equals Lean `Int` `%`. -/
def quadrant (x y : Int) : Int :=
  x % 2 + (y % 2) * 2

/-! ### Quadrant Grouper (source lines 144-153) -/

/-- Target key of a source tile: `target_x = x // 2`, `target_y = y // 2`
(source lines 147-148); Python `//` with positive divisor is Lean `Int` `/`. -/
def targetKey (t : SourceTile) : Int × Int :=
  (t.x / 2, t.y / 2)

/-- One iteration of the grouping loop (source lines 150-153): Python dicts
keep keys in insertion order, so a fresh key is appended at the end and an
existing key has the tile appended to its list.  The association list built by
`target_tiles` always has pairwise distinct keys, for which this recursion is
exactly the dict update. -/
def insertTile : List ((Int × Int) × List SourceTile) → SourceTile →
    List ((Int × Int) × List SourceTile)
  | [], t => [(targetKey t, [t])]
  | kv :: m, t =>
      if kv.1 = targetKey t then (kv.1, kv.2 ++ [t]) :: m
      else kv :: insertTile m t

/-- The grouping loop `for x, y, path in tiles: ... target_tiles[(target_x,
target_y)].append((x, y, path))` (source lines 145-153). -/
def target_tiles (tiles : List SourceTile) : List ((Int × Int) × List SourceTile) :=
  tiles.foldl insertTile []

/-- Association-list lookup, the meaning of `target_tiles[(tx, ty)]`. -/
def lookupGroup : List ((Int × Int) × List SourceTile) → Int × Int →
    Option (List SourceTile)
  | [], _ => none
  | kv :: m, k => if kv.1 = k then some kv.2 else lookupGroup m k

/-- Demo tile list for the grouping witness. -/
def demoTiles : List SourceTile :=
  [⟨0, 0, "a"⟩, ⟨1, 0, "b"⟩, ⟨5, 7, "c"⟩]

/-! ### Tile Compositor (`create_tile`, source lines 22-90)

The PIL codec is the collaborator interface of spec section 6: decoding is an
environment `decode : String → Option Img` (`none` models an `Image.open` /
`convert` exception), and `imageNew`, `paste`, `resize` model the codec
operations `Image.new`, `Image.paste` at an offset, and `Image.resize`.  The
resampling kernel of `resize` is abstracted (floating-point filtering is out
of scope); only its output dimensions and determinism are relied on.
Saving is an environment `writeOk : String → Bool`; `false` models an I/O
exception from `merged.save`, which `create_tile` propagates. -/

/-- Log severity, mirroring the `logging` calls in the source. -/
inductive LogLevel where
  | debug
  | info
  | warning
  | error
  deriving DecidableEq, Repr

/-- One log record. -/
structure LogEntry where
  level : LogLevel
  msg : String
  deriving DecidableEq, Repr

/-- Model of `os.path.join` for the two-argument uses in the source. -/
def pathJoin (a b : String) : String :=
  a ++ "/" ++ b

/-- The fully transparent pixel `(0, 0, 0, 0)`. -/
def transparentPx : RGBA :=
  ⟨0, 0, 0, 0⟩

/-- Codec model of `Image.new` in RGBA mode with size `(w, h)` and constant fill `c`. -/
def imageNew (w h : Nat) (c : RGBA) : Img :=
  ⟨w, h, fun _ _ => c⟩

/-- Codec model of `base.paste(top, (ox, oy))`: pixels of the pasted
rectangle come from `top` (PIL paste without a mask copies all channels,
alpha included), the rest keep the base value. -/
def paste (base top : Img) (ox oy : Nat) : Img :=
  ⟨base.width, base.height, fun px py =>
    if ox ≤ px ∧ px < ox + top.width ∧ oy ≤ py ∧ py < oy + top.height then
      top.pixel (px - ox) (py - oy)
    else base.pixel px py⟩

/-- Codec model of `img.resize((w, h), Image.LANCZOS)`: a deterministic
resample to exactly `w × h`; the Lanczos kernel itself is abstracted by
coordinate scaling. -/
def resize (img : Img) (w h : Nat) : Img :=
  ⟨w, h, fun px py => img.pixel (px * img.width / w) (py * img.height / h)⟩

/-- The quadrant slot used by the assignment `quadrants[quadrant] = img`;
`quadrant x y` lies in `{0,1,2,3}` so the list index is a `Fin 4`. -/
def quadrantFin (x y : Int) : Fin 4 :=
  ⟨(quadrant x y).toNat, by unfold quadrant; omega⟩

/-- One iteration of the assignment loop (source lines 44-57): decode the
tile; on success store it in its quadrant slot (overwriting any previous
occupant) with a debug log, on failure log a warning naming the path and
leave the slot untouched. -/
def loadStep (decode : String → Option Img)
    (st : (Fin 4 → Option Img) × List LogEntry) (t : SourceTile) :
    (Fin 4 → Option Img) × List LogEntry :=
  match decode t.path with
  | some img =>
      (fun j => if j = quadrantFin t.x t.y then some img else st.1 j,
       st.2 ++ [⟨.debug, "loaded " ++ toString t.x ++ "/" ++ toString t.y⟩])
  | none =>
      (st.1, st.2 ++ [⟨.warning, "image load failure " ++ t.path⟩])

/-- The whole assignment loop over `source_tiles`, starting from four empty
slots (`quadrants = [None, None, None, None]`, source line 38). -/
def loadQuadrants (decode : String → Option Img) (source_tiles : List SourceTile) :
    (Fin 4 → Option Img) × List LogEntry :=
  source_tiles.foldl (loadStep decode) (fun _ => none, [])

/-- Filling of the missing quadrants (source lines 59-65): every empty slot
becomes a fully transparent `tile_size × tile_size` image.  The source emits
no log entry here (the comment at line 62 says so explicitly). -/
def fillMissing (tile_size : Nat) (q : Fin 4 → Option Img) : Fin 4 → Img :=
  fun i => (q i).getD (imageNew tile_size tile_size transparentPx)

/-- The per-quadrant size check of source lines 68-71: an image whose
dimensions differ from the standard edge is resized to `tile_size × tile_size`. -/
def resizeQuadrant (tile_size : Nat) (q : Img) : Img :=
  if q.width ≠ tile_size ∨ q.height ≠ tile_size then resize q tile_size tile_size
  else q

/-- The size-normalization loop (source lines 67-71) together with its
warning log entries, one per resized quadrant, in slot order. -/
def normalizeQuadrants (tile_size : Nat) (q : Fin 4 → Img) :
    (Fin 4 → Img) × List LogEntry :=
  (fun i => resizeQuadrant tile_size (q i),
   (List.finRange 4).filterMap fun i =>
     if (q i).width ≠ tile_size ∨ (q i).height ≠ tile_size then
       some ⟨.warning, "nonstandard quadrant size " ++ toString i.val⟩
     else none)

/-- The composition of the four quadrants onto the `2*tile_size` square
canvas (source lines 73-78): slot 0 at `(0,0)`, slot 1 at `(S,0)`, slot 2 at
`(0,S)`, slot 3 at `(S,S)`. -/
def mergeQuadrants (tile_size : Nat) (q : Fin 4 → Img) : Img :=
  paste (paste (paste (paste
    (imageNew (tile_size * 2) (tile_size * 2) transparentPx)
    (q 0) 0 0)
    (q 1) tile_size 0)
    (q 2) 0 tile_size)
    (q 3) tile_size tile_size

/-- The output location `os.path.join(target_x_dir, f"{target_y}{ext}")`
with extension `.png` unconditionally (source lines 84-86). -/
def output_path (target_dir : String) (target_x target_y : Int) : String :=
  pathJoin (pathJoin target_dir (toString target_x)) (toString target_y ++ ".png")

/-- The full pixel pipeline of `create_tile` (source lines 38-81): load the
quadrants, fill the missing ones with transparency, normalize sizes, merge
onto the doubled canvas and downsample back to `tile_size`. -/
def composite (decode : String → Option Img) (source_tiles : List SourceTile)
    (tile_size : Nat) : Img :=
  resize (mergeQuadrants tile_size (normalizeQuadrants tile_size
    (fillMissing tile_size (loadQuadrants decode source_tiles).1)).1)
    tile_size tile_size

/-- The log records emitted by one successful `create_tile` run, in program
order: the opening debug line (line 41), the per-tile load lines, the
size-mismatch warnings, the save confirmation (line 88). -/
def create_tile_logs (decode : String → Option Img)
    (source_tiles : List SourceTile) (target_x target_y : Int)
    (target_dir : String) (tile_size : Nat) : List LogEntry :=
  [⟨.debug, "tile " ++ toString target_x ++ "/" ++ toString target_y ++
    " source count " ++ toString source_tiles.length⟩] ++
  (loadQuadrants decode source_tiles).2 ++
  (normalizeQuadrants tile_size
    (fillMissing tile_size (loadQuadrants decode source_tiles).1)).2 ++
  [⟨.debug, "saved " ++ output_path target_dir target_x target_y⟩]

/-- The function `create_tile` (source lines 22-90) as a function of its decode and write
environments.  The creation of the x directory (line 35) is modelled in the
level driver, which owns the filesystem value; here the write is the single
`merged.save` at line 87, whose failure is propagated as `Except.error`.
On success the result is the written `(path, pixel buffer)` pair plus the log
records, in program order. -/
def create_tile (decode : String → Option Img) (writeOk : String → Bool)
    (source_tiles : List SourceTile) (target_x target_y : Int)
    (target_dir : String) (tile_size : Nat) :
    Except String ((String × Img) × List LogEntry) :=
  if writeOk (output_path target_dir target_x target_y) then
    .ok ((output_path target_dir target_x target_y,
          composite decode source_tiles tile_size),
      create_tile_logs decode source_tiles target_x target_y target_dir tile_size)
  else
    .error ("save failure " ++ output_path target_dir target_x target_y)

/-- The fixed paste offset of each quadrant slot on the doubled canvas
(source lines 75-78): slot 0 at `(0,0)` (top-left), slot 1 at `(S,0)`
(top-right), slot 2 at `(0,S)` (bottom-left), slot 3 at `(S,S)`
(bottom-right). -/
def quadrantOffset (S : Nat) : Fin 4 → Nat × Nat
  | 0 => (0, 0)
  | 1 => (S, 0)
  | 2 => (0, S)
  | 3 => (S, S)

/-! ### Scanner, level driver and pyramid driver (source lines 92-181)

The filesystem is explicit: the tile tree is a finite map from zoom level to
the listing of `tiles_dir/<zoom>` (absent level = missing directory, the
`FileNotFoundError` case of `os.listdir`).  Each listing is a list of
directory entries with a name, an is-directory flag and the contained file
names. -/

/-- One entry of `os.listdir` on a zoom directory, together with what
`os.path.isdir` and a nested `os.listdir` would report for it. -/
structure DirEntry where
  name : String
  isDir : Bool
  files : List String
  deriving DecidableEq, Repr

/-- Decimal value of one digit character, `none` for a non-digit. -/
def charDigit (c : Char) : Option Nat :=
  if 48 ≤ c.toNat ∧ c.toNat ≤ 57 then some (c.toNat - 48) else none

/-- Left-to-right accumulation of a decimal numeral; `none` on the first
non-digit. -/
def digitsToNat : List Char → Nat → Option Nat
  | [], acc => some acc
  | c :: rest, acc =>
      match charDigit c with
      | some d => digitsToNat rest (acc * 10 + d)
      | none => none

/-- Python `int(...)` on a directory or file-stem name; `none` models
`ValueError`.  An optional minus sign followed by at least one decimal
digit, which covers the decimal names of a tile tree. -/
def parseName (s : String) : Option Int :=
  match s.data with
  | [] => none
  | '-' :: rest =>
      match rest with
      | [] => none
      | _ => (digitsToNat rest 0).map (fun n => -(n : Int))
  | cs => (digitsToNat cs 0).map (fun n => (n : Int))

/-- The characters before the last dot, `none` when there is no dot. -/
def beforeLastDot : List Char → Option (List Char)
  | [] => none
  | c :: rest =>
      match beforeLastDot rest with
      | some pre => some (c :: pre)
      | none => if c = '.' then some [] else none

/-- Model of `os.path.splitext(y_file)[0]` (source line 128): everything before the
last dot; a name whose only dot is leading (a plain dotfile such as
`.png`) is returned whole, as `splitext` does. -/
def splitextStem (s : String) : String :=
  match beforeLastDot s.data with
  | none => s
  | some [] => s
  | some pre => String.mk pre

/-- Python `str.endswith`, by character-list suffix test. -/
def strEndsWith (s suffix : String) : Bool :=
  suffix.data.isSuffixOf s.data

/-- Scan of the files of one x directory (source lines 123-132): names
ending in `.jpg` or `.png` whose stem is an integer become tiles, in listing
order; a matching extension with a non-integer stem is skipped with a
warning; any other name is skipped silently. -/
def scanXDir (x : Int) (dirPath : String) : List String → List SourceTile × List LogEntry
  | [] => ([], [])
  | f :: fs =>
      if strEndsWith f ".jpg" ∨ strEndsWith f ".png" then
        match parseName (splitextStem f) with
        | some y =>
            ((⟨x, y, pathJoin dirPath f⟩ : SourceTile) :: (scanXDir x dirPath fs).1,
             (scanXDir x dirPath fs).2)
        | none =>
            ((scanXDir x dirPath fs).1,
             (⟨.warning, "bad file name " ++ f⟩ : LogEntry) :: (scanXDir x dirPath fs).2)
      else scanXDir x dirPath fs

/-- Scan of one entry under the zoom root (source lines 116-134): an entry
that is not a directory is skipped silently (line 118, before any name
parsing); a directory whose name is not an integer is skipped with a
warning (lines 133-134). -/
def scanEntry (source_dir : String) (e : DirEntry) : List SourceTile × List LogEntry :=
  if e.isDir then
    match parseName e.name with
    | some x => scanXDir x (pathJoin source_dir e.name) e.files
    | none => ([], [⟨.warning, "bad directory name " ++ e.name⟩])
  else ([], [])

/-- The whole scan of the source directory of one level (source lines 114-134),
accumulating tiles and log entries in listing order. -/
def scanTiles (source_dir : String) (entries : List DirEntry) :
    List SourceTile × List LogEntry :=
  entries.foldl
    (fun acc e =>
      (acc.1 ++ (scanEntry source_dir e).1, acc.2 ++ (scanEntry source_dir e).2))
    ([], [])

/-- The tile tree below `tiles_dir`: content of each zoom directory, `none`
when the directory does not exist. -/
abbrev FS := List (Int × List DirEntry)

/-- Directory listing of `tiles_dir/<z>`. -/
def lookupFS : FS → Int → Option (List DirEntry)
  | [], _ => none
  | (z, es) :: fs, z' => if z = z' then some es else lookupFS fs z'

/-- Replacement of the listing of zoom `z` (insertion when absent). -/
def updateFS : FS → Int → List DirEntry → FS
  | [], z, es => [(z, es)]
  | (z0, es0) :: fs, z, es =>
      if z0 = z then (z0, es) :: fs else (z0, es0) :: updateFS fs z es

/-- Model of `os.makedirs(target_dir, exist_ok=True)` (source line 111): create the
zoom directory empty if absent; no error when it already exists. -/
def ensureZoomDir (fs : FS) (z : Int) : FS :=
  match lookupFS fs z with
  | some _ => fs
  | none => fs ++ [(z, [])]

/-- Model of `os.makedirs(target_x_dir, exist_ok=True)` (source line 35): create the
x subdirectory unless an entry of that name exists. -/
def mkXDir (es : List DirEntry) (xName : String) : List DirEntry :=
  if es.any (fun e => e.name = xName) then es
  else es ++ [⟨xName, true, []⟩]

/-- Persisting of one saved tile file into its x subdirectory
(`merged.save(output_path)`, source line 87). -/
def putFile (es : List DirEntry) (xName fName : String) : List DirEntry :=
  es.map fun e =>
    if e.name = xName ∧ e.isDir = true then
      ⟨e.name, e.isDir, if fName ∈ e.files then e.files else e.files ++ [fName]⟩
    else e

/-- The filesystem effect of one target-tile task: the x subdirectory is
created when the task starts (create_tile line 35); the tile file appears
exactly when the save succeeds. -/
def taskEffect (decode : String → Option Img) (writeOk : String → Bool)
    (target_dir : String) (S : Nat) (es : List DirEntry)
    (entry : (Int × Int) × List SourceTile) : List DirEntry :=
  match create_tile decode writeOk entry.2 entry.1.1 entry.1.2 target_dir S with
  | .ok _ => putFile (mkXDir es (toString entry.1.1)) (toString entry.1.1)
      (toString entry.1.2 ++ ".png")
  | .error _ => mkXDir es (toString entry.1.1)

/-- The sequential dispatch branch (source lines 174-179): each entry is
processed in turn; an exception from `create_tile` is caught and logged as a
per-tile error naming the coordinate, and the loop continues. -/
def processSeq (decode : String → Option Img) (writeOk : String → Bool)
    (target_dir : String) (S : Nat) :
    List ((Int × Int) × List SourceTile) → List DirEntry →
    List DirEntry × List LogEntry
  | [], es => (es, [])
  | entry :: rest, es =>
      match create_tile decode writeOk entry.2 entry.1.1 entry.1.2 target_dir S with
      | .ok (_, lg) =>
          ((processSeq decode writeOk target_dir S rest
              (taskEffect decode writeOk target_dir S es entry)).1,
           lg ++ (processSeq decode writeOk target_dir S rest
              (taskEffect decode writeOk target_dir S es entry)).2)
      | .error msg =>
          ((processSeq decode writeOk target_dir S rest
              (taskEffect decode writeOk target_dir S es entry)).1,
           (⟨.error, "tile " ++ toString entry.1.1 ++ "/" ++ toString entry.1.2 ++
              " generation error: " ++ msg⟩ : LogEntry) ::
           (processSeq decode writeOk target_dir S rest
              (taskEffect decode writeOk target_dir S es entry)).2)

/-- The worker-pool branch (source lines 158-172): every submitted task runs
to completion regardless of the others, and the futures are collected in
submission order, an exception being logged (line 172) without the
coordinate.  Each task touches only its own target file and x-directory
creation is idempotent, so the filesystem effect of the pool is the same
left-to-right iteration of `taskEffect`. -/
def processPool (decode : String → Option Img) (writeOk : String → Bool)
    (target_dir : String) (S : Nat) :
    List ((Int × Int) × List SourceTile) → List DirEntry →
    List DirEntry × List LogEntry
  | [], es => (es, [])
  | entry :: rest, es =>
      match create_tile decode writeOk entry.2 entry.1.1 entry.1.2 target_dir S with
      | .ok (_, lg) =>
          ((processPool decode writeOk target_dir S rest
              (taskEffect decode writeOk target_dir S es entry)).1,
           lg ++ (processPool decode writeOk target_dir S rest
              (taskEffect decode writeOk target_dir S es entry)).2)
      | .error msg =>
          ((processPool decode writeOk target_dir S rest
              (taskEffect decode writeOk target_dir S es entry)).1,
           (⟨.error, "tile generation error: " ++ msg⟩ : LogEntry) ::
           (processPool decode writeOk target_dir S rest
              (taskEffect decode writeOk target_dir S es entry)).2)

/-- The worker-count switch of source lines 157-179. -/
def dispatch (decode : String → Option Img) (writeOk : String → Bool)
    (workers : Nat) (target_dir : String) (S : Nat)
    (groups : List ((Int × Int) × List SourceTile)) (es : List DirEntry) :
    List DirEntry × List LogEntry :=
  if workers > 1 then processPool decode writeOk target_dir S groups es
  else processSeq decode writeOk target_dir S groups es

/-- The part of one level iteration after the source listing succeeded
(source lines 139-181): count log, fatal `sys.exit(1)` on zero tiles (lines
140-142), grouping, dispatch with the default tile size 256, persisting of
the written files at the current zoom. -/
def run_level_scanned (decode : String → Option Img) (writeOk : String → Bool)
    (workers : Nat) (tiles_dir : String) (fs1 : FS) (current_zoom : Int)
    (scanned : List SourceTile × List LogEntry) :
    Except (FS × List LogEntry) (FS × List LogEntry) :=
  if scanned.1.isEmpty then
    .error (fs1,
      [⟨.info, "generating zoom " ++ toString current_zoom⟩] ++ scanned.2 ++
      [⟨.info, "total source tiles " ++ toString scanned.1.length⟩,
       ⟨.error, "no tiles at zoom " ++ toString (current_zoom + 1)⟩])
  else
    .ok (updateFS fs1 current_zoom
        (dispatch decode writeOk workers (pathJoin tiles_dir (toString current_zoom))
          256 (target_tiles scanned.1) ((lookupFS fs1 current_zoom).getD [])).1,
      [⟨.info, "generating zoom " ++ toString current_zoom⟩] ++ scanned.2 ++
      [⟨.info, "total source tiles " ++ toString scanned.1.length⟩,
       ⟨.info, "target tile count " ++ toString (target_tiles scanned.1).length⟩] ++
      (dispatch decode writeOk workers (pathJoin tiles_dir (toString current_zoom))
        256 (target_tiles scanned.1) ((lookupFS fs1 current_zoom).getD [])).2 ++
      [⟨.info, "zoom done " ++ toString current_zoom⟩])

/-- One iteration of the level loop (source lines 105-181): make the target
zoom directory (line 111, before the listing), list the source zoom
directory — `FileNotFoundError` is the fatal `sys.exit(1)` of lines 135-137 —
then continue with the scan result. -/
def run_level (decode : String → Option Img) (writeOk : String → Bool)
    (workers : Nat) (tiles_dir : String) (fs : FS) (current_zoom : Int) :
    Except (FS × List LogEntry) (FS × List LogEntry) :=
  match lookupFS (ensureZoomDir fs current_zoom) (current_zoom + 1) with
  | none =>
      .error (ensureZoomDir fs current_zoom,
        [⟨.info, "generating zoom " ++ toString current_zoom⟩,
         ⟨.error, "source directory not found " ++
           pathJoin tiles_dir (toString (current_zoom + 1))⟩])
  | some entries =>
      run_level_scanned decode writeOk workers tiles_dir
        (ensureZoomDir fs current_zoom) current_zoom
        (scanTiles (pathJoin tiles_dir (toString (current_zoom + 1))) entries)

/-- The zoom levels visited by
`range(source_zoom - 1, dest_zoom_min - 1, -1)` (source line 105), in
order. -/
def zoom_range (source_zoom dest_zoom_min : Int) : List Int :=
  (List.range (source_zoom - dest_zoom_min).toNat).map
    (fun i => source_zoom - 1 - (i : Int))

/-- The level loop: a fatal level stops the run at once with exit status 1
(`sys.exit(1)`); when every level completes the status is 0. -/
def run_zooms (decode : String → Option Img) (writeOk : String → Bool)
    (workers : Nat) (tiles_dir : String) :
    FS → List Int → Nat × FS × List LogEntry
  | fs, [] => (0, fs, [])
  | fs, z :: rest =>
      match run_level decode writeOk workers tiles_dir fs z with
      | .error fl => (1, fl.1, fl.2)
      | .ok fl =>
          ((run_zooms decode writeOk workers tiles_dir fl.1 rest).1,
           (run_zooms decode writeOk workers tiles_dir fl.1 rest).2.1,
           fl.2 ++ (run_zooms decode writeOk workers tiles_dir fl.1 rest).2.2)

/-- The function `create_lower_zoom_tiles` (source lines 92-181) together with the exit
status of `main`: component 1 is the status (1 from `sys.exit(1)`, 0 when
all levels complete), then the final tile tree and the log. -/
def create_lower_zoom_tiles (decode : String → Option Img)
    (writeOk : String → Bool) (source_zoom dest_zoom_min : Int)
    (tiles_dir : String) (workers : Nat) (fs : FS) :
    Nat × FS × List LogEntry :=
  run_zooms decode writeOk workers tiles_dir fs (zoom_range source_zoom dest_zoom_min)

/-- A file `fName` recorded inside the x subdirectory `xName` of a zoom
directory listing. -/
def hasFile (es : List DirEntry) (xName fName : String) : Prop :=
  ∃ e ∈ es, e.name = xName ∧ e.isDir = true ∧ fName ∈ e.files

/-- C1: the quadrant index assigned by the compositor equals
`(x mod 2) + 2*(y mod 2)`; the induced map on residue pairs sends
`(0,0) ↦ 0`, `(1,0) ↦ 1`, `(0,1) ↦ 2`, `(1,1) ↦ 3`, is injective on residue
pairs and hits every index in `{0,1,2,3}` — a bijection from residue pairs to
`{0,1,2,3}`. -/
theorem quadrant_bijection :
    (∀ x y : Int, quadrant x y = x % 2 + 2 * (y % 2)) ∧
    quadrant 0 0 = 0 ∧ quadrant 1 0 = 1 ∧ quadrant 0 1 = 2 ∧ quadrant 1 1 = 3 ∧
    (∀ x y x' y' : Int,
      quadrant x y = quadrant x' y' ↔ (x % 2 = x' % 2 ∧ y % 2 = y' % 2)) ∧
    (∀ q : Int, 0 ≤ q → q < 4 → ∃ x y : Int, quadrant x y = q) := by
  refine ⟨fun x y => by unfold quadrant; ring, by decide, by decide, by decide, by decide,
    fun x y x' y' => ?_, fun q h0 h4 => ⟨q % 2, q / 2, ?_⟩⟩
  · unfold quadrant
    constructor <;> intro h <;> omega
  · unfold quadrant
    omega

/-- Concrete instance of C1: index 2 is attained, and `(1,1)` lands in
quadrant 3. -/
theorem quadrant_bijection_witness :
    (∃ x y : Int, quadrant x y = 2) ∧ quadrant 1 1 = 3 :=
  ⟨quadrant_bijection.2.2.2.2.2.2 2 (by decide) (by decide),
   quadrant_bijection.2.2.2.2.1⟩

theorem lookupGroup_insertTile (m : List ((Int × Int) × List SourceTile))
    (t : SourceTile) (k : Int × Int) :
    lookupGroup (insertTile m t) k =
      if targetKey t = k then some ((lookupGroup m k).getD [] ++ [t])
      else lookupGroup m k := by
  induction m with
  | nil =>
      by_cases h : targetKey t = k <;> simp [insertTile, lookupGroup, h]
  | cons kv m ih =>
      by_cases h1 : kv.1 = targetKey t
      · by_cases h2 : targetKey t = k
        · have hk : kv.1 = k := h1.trans h2
          simp [insertTile, lookupGroup, h1, h2, hk]
        · have hk : ¬ kv.1 = k := fun hh => h2 (h1.symm.trans hh)
          simp [insertTile, lookupGroup, h1, h2, hk]
      · by_cases h3 : kv.1 = k
        · have h2 : ¬ targetKey t = k := fun hh => h1 (h3.trans hh.symm)
          have h4 : ¬ k = targetKey t := fun hh => h2 hh.symm
          simp [insertTile, lookupGroup, h1, h3, h2, h4]
        · simp [insertTile, lookupGroup, h1, h3, ih]

theorem lookupGroup_foldl (tiles : List SourceTile)
    (m : List ((Int × Int) × List SourceTile)) (k : Int × Int) :
    lookupGroup (tiles.foldl insertTile m) k =
      match lookupGroup m k with
      | some l => some (l ++ tiles.filter (fun t => targetKey t = k))
      | none =>
          if (tiles.filter (fun t => targetKey t = k)).isEmpty then none
          else some (tiles.filter (fun t => targetKey t = k)) := by
  induction tiles generalizing m with
  | nil => cases h : lookupGroup m k <;> simp [List.foldl, h]
  | cons t tiles ih =>
      rw [List.foldl_cons, ih, lookupGroup_insertTile]
      by_cases ht : targetKey t = k
      · cases h : lookupGroup m k <;>
          simp [ht, h, List.filter_cons, List.isEmpty_iff]
      · cases h : lookupGroup m k <;> simp [ht, h, List.filter_cons]

/-- Characterization of the grouper: looking up key `k` in the built dict
returns exactly the source tiles whose target key is `k` (in input order), or
nothing when no tile maps to `k`. -/
theorem lookupGroup_target_tiles (tiles : List SourceTile) (k : Int × Int) :
    lookupGroup (target_tiles tiles) k =
      if (tiles.filter (fun t => targetKey t = k)).isEmpty then none
      else some (tiles.filter (fun t => targetKey t = k)) := by
  rw [target_tiles, lookupGroup_foldl]
  rfl

theorem keys_insertTile (m : List ((Int × Int) × List SourceTile)) (t : SourceTile) :
    (insertTile m t).map Prod.fst =
      if targetKey t ∈ m.map Prod.fst then m.map Prod.fst
      else m.map Prod.fst ++ [targetKey t] := by
  induction m with
  | nil => simp [insertTile]
  | cons kv m ih =>
      by_cases h1 : kv.1 = targetKey t
      · simp [insertTile, h1]
      · have : ¬ targetKey t = kv.1 := fun hh => h1 hh.symm
        by_cases h2 : targetKey t ∈ m.map Prod.fst <;>
          simp [insertTile, h1, this, h2, ih]

theorem keys_nodup_foldl (tiles : List SourceTile)
    (m : List ((Int × Int) × List SourceTile)) (hm : (m.map Prod.fst).Nodup) :
    ((tiles.foldl insertTile m).map Prod.fst).Nodup := by
  induction tiles generalizing m with
  | nil => simpa using hm
  | cons t tiles ih =>
      rw [List.foldl_cons]
      refine ih _ ?_
      rw [keys_insertTile]
      by_cases h : targetKey t ∈ m.map Prod.fst
      · simpa [h] using hm
      · simp only [h, if_false]
        refine hm.append (List.nodup_singleton _) ?_
        intro x hx hx1
        rw [List.mem_singleton] at hx1
        exact h (hx1 ▸ hx)

theorem lookupGroup_eq_none (m : List ((Int × Int) × List SourceTile))
    (k : Int × Int) :
    lookupGroup m k = none ↔ k ∉ m.map Prod.fst := by
  induction m with
  | nil => simp [lookupGroup]
  | cons kv m ih =>
      by_cases h : kv.1 = k
      · simp [lookupGroup, h]
      · have hne : ¬ k = kv.1 := fun hh => h hh.symm
        simp [lookupGroup, h, ih, hne]

/-- C2: the grouper keys each tile by `(x//2, y//2)`; every source tile
appears in the group of its own key and in no other group; every member of
the group keyed `(tx, ty)` is an input tile with `x//2 = tx` and `y//2 = ty`;
and the number of target keys equals the number of distinct `(x//2, y//2)`
pairs. -/
theorem grouping_correct (tiles : List SourceTile)
    (_hnn : ∀ t ∈ tiles, 0 ≤ t.x ∧ 0 ≤ t.y) :
    (∀ t ∈ tiles, ∃ l, lookupGroup (target_tiles tiles) (targetKey t) = some l ∧ t ∈ l) ∧
    (∀ k l, lookupGroup (target_tiles tiles) k = some l →
      ∀ t ∈ l, t ∈ tiles ∧ t.x / 2 = k.1 ∧ t.y / 2 = k.2) ∧
    (∀ t ∈ tiles, ∀ k l, lookupGroup (target_tiles tiles) k = some l → t ∈ l →
      k = targetKey t) ∧
    ((target_tiles tiles).map Prod.fst).length = (tiles.map targetKey).toFinset.card := by
  refine ⟨?_, ?_, ?_, ?_⟩
  · intro t ht
    refine ⟨tiles.filter (fun s => targetKey s = targetKey t), ?_, ?_⟩
    · rw [lookupGroup_target_tiles]
      have hne : ¬ (tiles.filter (fun s => targetKey s = targetKey t)).isEmpty := by
        simp only [List.isEmpty_iff, List.filter_eq_nil_iff]
        exact fun hall => by simpa using hall t ht
      simp [hne]
    · simp only [List.mem_filter]
      exact ⟨ht, by simp⟩
  · intro k l hl t htl
    rw [lookupGroup_target_tiles] at hl
    by_cases he : (tiles.filter (fun t => targetKey t = k)).isEmpty
    · rw [if_pos he] at hl
      exact absurd hl (by simp)
    · rw [if_neg he] at hl
      have hle := Option.some.inj hl
      rw [← hle] at htl
      simp only [List.mem_filter, decide_eq_true_eq] at htl
      exact ⟨htl.1, congrArg Prod.fst htl.2, congrArg Prod.snd htl.2⟩
  · intro t _ k l hl htl
    rw [lookupGroup_target_tiles] at hl
    by_cases he : (tiles.filter (fun t => targetKey t = k)).isEmpty
    · rw [if_pos he] at hl
      exact absurd hl (by simp)
    · rw [if_neg he] at hl
      have hle := Option.some.inj hl
      rw [← hle] at htl
      simp only [List.mem_filter, decide_eq_true_eq] at htl
      exact htl.2.symm
  · have hnd : ((target_tiles tiles).map Prod.fst).Nodup :=
      keys_nodup_foldl tiles [] (by simp)
    have hmem : ∀ k, k ∈ (target_tiles tiles).map Prod.fst ↔
        k ∈ tiles.map targetKey := by
      intro k
      have h1 := lookupGroup_eq_none (target_tiles tiles) k
      rw [lookupGroup_target_tiles] at h1
      by_cases he : (tiles.filter (fun t => targetKey t = k)).isEmpty
      · have hk : k ∉ (target_tiles tiles).map Prod.fst := h1.mp (by rw [if_pos he])
        have hk2 : k ∉ tiles.map targetKey := by
          simp only [List.isEmpty_iff, List.filter_eq_nil_iff, decide_eq_true_eq] at he
          simp only [List.mem_map, not_exists]
          rintro t ⟨ht, rfl⟩
          exact he t ht rfl
        simp [hk, hk2]
      · have hk : k ∈ (target_tiles tiles).map Prod.fst := by
          by_contra hc
          have := h1.mpr hc
          rw [if_neg he] at this
          exact absurd this (by simp)
        have hk2 : k ∈ tiles.map targetKey := by
          simp only [List.isEmpty_iff] at he
          obtain ⟨t, ht⟩ := List.exists_mem_of_ne_nil _ he
          simp only [List.mem_filter, decide_eq_true_eq] at ht
          exact List.mem_map.2 ⟨t, ht.1, ht.2⟩
        simp [hk, hk2]
    have hset : ((target_tiles tiles).map Prod.fst).toFinset =
        (tiles.map targetKey).toFinset := by
      ext k
      simpa only [List.mem_toFinset] using hmem k
    calc ((target_tiles tiles).map Prod.fst).length
        = ((target_tiles tiles).map Prod.fst).toFinset.card :=
          (List.toFinset_card_of_nodup hnd).symm
      _ = (tiles.map targetKey).toFinset.card := by rw [hset]

/-- Concrete instance of C2 on three tiles with two distinct target keys. -/
theorem grouping_correct_witness :
    ((target_tiles demoTiles).map Prod.fst).length =
      (demoTiles.map targetKey).toFinset.card :=
  (grouping_correct demoTiles (by decide)).2.2.2

theorem loadStep_foldl_preserve (decode : String → Option Img) (i : Fin 4)
    (ts : List SourceTile) (st : (Fin 4 → Option Img) × List LogEntry)
    (h : ∀ t ∈ ts, quadrantFin t.x t.y = i → decode t.path = none) :
    (ts.foldl (loadStep decode) st).1 i = st.1 i := by
  induction ts generalizing st with
  | nil => rfl
  | cons t ts ih =>
      rw [List.foldl_cons, ih _ (fun s hs => h s (List.mem_cons_of_mem _ hs))]
      cases hd : decode t.path with
      | none => simp [loadStep, hd]
      | some img =>
          have hne : ¬ i = quadrantFin t.x t.y := by
            intro hh
            have hcon := h t (List.mem_cons_self t ts) hh.symm
            rw [hd] at hcon
            exact absurd hcon (by simp)
          simp [loadStep, hd, hne]

theorem loadStep_foldl_logs_mono (decode : String → Option Img)
    (ts : List SourceTile) (st : (Fin 4 → Option Img) × List LogEntry)
    (e : LogEntry) (he : e ∈ st.2) : e ∈ (ts.foldl (loadStep decode) st).2 := by
  induction ts generalizing st with
  | nil => exact he
  | cons t ts ih =>
      rw [List.foldl_cons]
      refine ih _ ?_
      cases hd : decode t.path <;> simp [loadStep, hd, he]

theorem loadStep_foldl_warn (decode : String → Option Img)
    (ts : List SourceTile) (st : (Fin 4 → Option Img) × List LogEntry)
    (t : SourceTile) (ht : t ∈ ts) (hd : decode t.path = none) :
    (⟨.warning, "image load failure " ++ t.path⟩ : LogEntry) ∈
      (ts.foldl (loadStep decode) st).2 := by
  induction ts generalizing st with
  | nil => cases ht
  | cons s ts ih =>
      rw [List.foldl_cons]
      rcases List.mem_cons.1 ht with h1 | h1
      · subst h1
        refine loadStep_foldl_logs_mono decode ts _ _ ?_
        simp [loadStep, hd]
      · exact ih _ h1

theorem loadStep_foldl_no_warning (decode : String → Option Img)
    (ts : List SourceTile) (st : (Fin 4 → Option Img) × List LogEntry)
    (h : ∀ t ∈ ts, decode t.path ≠ none)
    (hst : ∀ e ∈ st.2, e.level = LogLevel.debug) :
    ∀ e ∈ (ts.foldl (loadStep decode) st).2, e.level = LogLevel.debug := by
  induction ts generalizing st with
  | nil => exact hst
  | cons t ts ih =>
      rw [List.foldl_cons]
      refine ih _ (fun s hs => h s (List.mem_cons_of_mem _ hs)) ?_
      cases hd : decode t.path with
      | none => exact absurd hd (h t (List.mem_cons_self t ts))
      | some img =>
          intro e he
          simp only [loadStep, hd, List.mem_append, List.mem_singleton] at he
          rcases he with he | he
          · exact hst e he
          · rw [he]

theorem loadStep_foldl_slot_some (decode : String → Option Img) (i : Fin 4)
    (ts : List SourceTile) (st : (Fin 4 → Option Img) × List LogEntry)
    (img : Img) (h : (ts.foldl (loadStep decode) st).1 i = some img) :
    st.1 i = some img ∨
      ∃ t ∈ ts, decode t.path = some img ∧ quadrantFin t.x t.y = i := by
  induction ts generalizing st with
  | nil => exact Or.inl h
  | cons t ts ih =>
      rw [List.foldl_cons] at h
      rcases ih _ h with h1 | h1
      · cases hd : decode t.path with
        | none => simp only [loadStep, hd] at h1; exact Or.inl h1
        | some img' =>
            simp only [loadStep, hd] at h1
            by_cases hq : i = quadrantFin t.x t.y
            · rw [if_pos hq] at h1
              exact Or.inr ⟨t, List.mem_cons_self t ts,
                by rw [hd, h1], hq.symm⟩
            · rw [if_neg hq] at h1
              exact Or.inl h1
      · obtain ⟨s, hs, h2, h3⟩ := h1
        exact Or.inr ⟨s, List.mem_cons_of_mem _ hs, h2, h3⟩

theorem normalizeQuadrants_size (S : Nat) (q : Fin 4 → Img) (j : Fin 4) :
    ((normalizeQuadrants S q).1 j).width = S ∧
      ((normalizeQuadrants S q).1 j).height = S := by
  show (resizeQuadrant S (q j)).width = S ∧ (resizeQuadrant S (q j)).height = S
  unfold resizeQuadrant
  by_cases h : (q j).width ≠ S ∨ (q j).height ≠ S
  · rw [if_pos h]
    exact ⟨rfl, rfl⟩
  · rw [if_neg h]
    push_neg at h
    exact ⟨h.1, h.2⟩

theorem normalizeQuadrants_keep (S : Nat) (q : Fin 4 → Img) (j : Fin 4)
    (hw : (q j).width = S) (hh : (q j).height = S) :
    (normalizeQuadrants S q).1 j = q j := by
  show resizeQuadrant S (q j) = q j
  unfold resizeQuadrant
  rw [if_neg]
  push_neg
  exact ⟨hw, hh⟩

theorem normalizeQuadrants_silent (S : Nat) (q : Fin 4 → Img)
    (h : ∀ j : Fin 4, (q j).width = S ∧ (q j).height = S) :
    (normalizeQuadrants S q).2 = [] := by
  unfold normalizeQuadrants
  simp only [List.filterMap_eq_nil_iff]
  intro j _
  rw [if_neg]
  push_neg
  exact h j

/-- Pixel content of the merged canvas inside the rectangle of each quadrant,
provided every quadrant is `S × S` (which `normalizeQuadrants` guarantees):
the pastes land on disjoint rectangles, so each pixel comes from the slot
whose rectangle contains it. -/
theorem mergeQuadrants_pixel (S : Nat) (q : Fin 4 → Img)
    (hw : ∀ j : Fin 4, (q j).width = S ∧ (q j).height = S) (px py : Nat) :
    (px < S → py < S →
      (mergeQuadrants S q).pixel px py = (q 0).pixel px py) ∧
    (S ≤ px → px < S + S → py < S →
      (mergeQuadrants S q).pixel px py = (q 1).pixel (px - S) py) ∧
    (px < S → S ≤ py → py < S + S →
      (mergeQuadrants S q).pixel px py = (q 2).pixel px (py - S)) ∧
    (S ≤ px → px < S + S → S ≤ py → py < S + S →
      (mergeQuadrants S q).pixel px py = (q 3).pixel (px - S) (py - S)) := by
  have w0 := hw 0
  have w1 := hw 1
  have w2 := hw 2
  have w3 := hw 3
  refine ⟨?_, ?_, ?_, ?_⟩ <;> intros <;>
    simp only [mergeQuadrants, paste, imageNew, w0.1, w0.2, w1.1, w1.2,
      w2.1, w2.2, w3.1, w3.2] <;>
    split_ifs <;> first | rfl | omega

theorem fillMissing_size (S : Nat) (decode : String → Option Img)
    (source_tiles : List SourceTile)
    (hgood : ∀ t ∈ source_tiles, ∃ img, decode t.path = some img ∧
      img.width = S ∧ img.height = S) (j : Fin 4) :
    (fillMissing S (loadQuadrants decode source_tiles).1 j).width = S ∧
      (fillMissing S (loadQuadrants decode source_tiles).1 j).height = S := by
  unfold fillMissing
  cases hj : (loadQuadrants decode source_tiles).1 j with
  | none => exact ⟨rfl, rfl⟩
  | some img =>
      rcases loadStep_foldl_slot_some decode j source_tiles _ img hj with h | h
      · exact absurd h (by simp)
      · obtain ⟨t, ht, hdec, _⟩ := h
        obtain ⟨img', hd', hw', hh'⟩ := hgood t ht
        rw [hd'] at hdec
        cases hdec
        exact ⟨hw', hh'⟩

/-- C3: a quadrant slot for which no supplied source tile decodes — in
particular a slot with no source tile at all, the missing-member case of a
`QuadrantSet` entry with fewer than 4 members — is filled with the fully
transparent `S × S` image; the corresponding rectangle of the `2S × 2S`
pre-downsample canvas then has alpha 0 everywhere; and the filling is
silent: when every tile that was supplied decodes to a standard-size image,
a successful `create_tile` run logs no warning at all. -/
theorem missing_quadrant_transparent (decode : String → Option Img)
    (writeOk : String → Bool) (source_tiles : List SourceTile)
    (target_x target_y : Int) (target_dir : String) (S : Nat) (i : Fin 4)
    (hmiss : ∀ t ∈ source_tiles, quadrantFin t.x t.y = i → decode t.path = none) :
    fillMissing S (loadQuadrants decode source_tiles).1 i =
      imageNew S S transparentPx ∧
    (∀ px py, (quadrantOffset S i).1 ≤ px → px < (quadrantOffset S i).1 + S →
      (quadrantOffset S i).2 ≤ py → py < (quadrantOffset S i).2 + S →
      ((mergeQuadrants S (normalizeQuadrants S
        (fillMissing S (loadQuadrants decode source_tiles).1)).1).pixel px py).a
        = 0) ∧
    ((∀ t ∈ source_tiles, ∃ img, decode t.path = some img ∧
        img.width = S ∧ img.height = S) →
      ∀ out logs, create_tile decode writeOk source_tiles target_x target_y
        target_dir S = .ok (out, logs) → ∀ e ∈ logs, e.level ≠ .warning) := by
  have hslot : (loadQuadrants decode source_tiles).1 i = none :=
    loadStep_foldl_preserve decode i source_tiles _ hmiss
  have hfill : fillMissing S (loadQuadrants decode source_tiles).1 i =
      imageNew S S transparentPx := by
    unfold fillMissing
    rw [hslot]
    rfl
  refine ⟨hfill, ?_, ?_⟩
  · intro px py hp1 hp2 hp3 hp4
    have hsz := normalizeQuadrants_size S
      (fillMissing S (loadQuadrants decode source_tiles).1)
    have hkeep : (normalizeQuadrants S
        (fillMissing S (loadQuadrants decode source_tiles).1)).1 i =
        imageNew S S transparentPx := by
      rw [normalizeQuadrants_keep S _ i (by rw [hfill]; rfl) (by rw [hfill]; rfl)]
      exact hfill
    have hmp := mergeQuadrants_pixel S
      ((normalizeQuadrants S (fillMissing S (loadQuadrants decode source_tiles).1)).1)
      hsz px py
    obtain ⟨v, hv⟩ := i
    interval_cases v
    · have hk : (normalizeQuadrants S
          (fillMissing S (loadQuadrants decode source_tiles).1)).1 0 =
          imageNew S S transparentPx := hkeep
      simp only [quadrantOffset] at hp1 hp2 hp3 hp4
      rw [hmp.1 (by omega) (by omega), hk]
      rfl
    · have hk : (normalizeQuadrants S
          (fillMissing S (loadQuadrants decode source_tiles).1)).1 1 =
          imageNew S S transparentPx := hkeep
      simp only [quadrantOffset] at hp1 hp2 hp3 hp4
      rw [hmp.2.1 (by omega) (by omega) (by omega), hk]
      rfl
    · have hk : (normalizeQuadrants S
          (fillMissing S (loadQuadrants decode source_tiles).1)).1 2 =
          imageNew S S transparentPx := hkeep
      simp only [quadrantOffset] at hp1 hp2 hp3 hp4
      rw [hmp.2.2.1 (by omega) (by omega) (by omega), hk]
      rfl
    · have hk : (normalizeQuadrants S
          (fillMissing S (loadQuadrants decode source_tiles).1)).1 3 =
          imageNew S S transparentPx := hkeep
      simp only [quadrantOffset] at hp1 hp2 hp3 hp4
      rw [hmp.2.2.2 (by omega) (by omega) (by omega) (by omega), hk]
      rfl
  · intro hgood out logs hok e helogs
    unfold create_tile at hok
    cases hwk : writeOk (output_path target_dir target_x target_y) with
    | false =>
        rw [hwk] at hok
        simp only [Bool.false_eq_true, if_false] at hok
        exact Except.noConfusion hok
    | true =>
        rw [hwk, if_pos rfl] at hok
        have hlogs : create_tile_logs decode source_tiles target_x target_y
            target_dir S = logs := congrArg Prod.snd (Except.ok.inj hok)
        rw [← hlogs] at helogs
        have hnosz := normalizeQuadrants_silent S
          (fillMissing S (loadQuadrants decode source_tiles).1)
          (fillMissing_size S decode source_tiles hgood)
        simp only [create_tile_logs, hnosz, List.append_nil, List.mem_append,
          List.mem_singleton, List.not_mem_nil, or_false] at helogs
        rcases helogs with (he | he) | he
        · rw [he]
          simp
        · have hdbg := loadStep_foldl_no_warning decode source_tiles _
            (fun t ht => by rw [(hgood t ht).choose_spec.1]; simp)
            (by intro x hx; cases hx) e he
          rw [hdbg]
          simp
        · rw [he]
          simp

/-- Concrete instance of C3: with one source tile sitting in quadrant 1 and
a decoder that fails everywhere, the top-left pixel of the pre-downsample
canvas is fully transparent. -/
theorem missing_quadrant_transparent_witness :
    ((mergeQuadrants 2 (normalizeQuadrants 2 (fillMissing 2
      (loadQuadrants (fun _ => none) [⟨1, 0, "a"⟩]).1)).1).pixel 0 0).a = 0 :=
  (missing_quadrant_transparent (fun _ => none) (fun _ => true) [⟨1, 0, "a"⟩]
    0 0 "tiles/17" 2 0 (fun _ _ _ => rfl)).2.1 0 0
    (by decide) (by decide) (by decide) (by decide)

theorem loadStep_foldl_congr (d1 d2 : String → Option Img)
    (ts : List SourceTile) (st : (Fin 4 → Option Img) × List LogEntry)
    (h : ∀ t ∈ ts, d1 t.path = d2 t.path) :
    ts.foldl (loadStep d1) st = ts.foldl (loadStep d2) st := by
  induction ts generalizing st with
  | nil => rfl
  | cons t ts ih =>
      rw [List.foldl_cons, List.foldl_cons]
      have hst : loadStep d1 st t = loadStep d2 st t := by
        unfold loadStep
        rw [h t (List.mem_cons_self t ts)]
      rw [hst]
      exact ih _ (fun s hs => h s (List.mem_cons_of_mem _ hs))

/-- C4: `create_tile` is a pure function of its inputs: two runs whose
environments agree on the paths of the supplied tiles and on the output location
produce bit-identical results — the same output pixel buffer, path and
logs.  Worker count and dispatch order are not among its inputs, so the
composite cannot depend on them. -/
theorem composite_deterministic (d1 d2 : String → Option Img)
    (w1 w2 : String → Bool) (source_tiles : List SourceTile)
    (target_x target_y : Int) (target_dir : String) (S : Nat)
    (hd : ∀ t ∈ source_tiles, d1 t.path = d2 t.path)
    (hw : w1 (output_path target_dir target_x target_y) =
      w2 (output_path target_dir target_x target_y)) :
    create_tile d1 w1 source_tiles target_x target_y target_dir S =
      create_tile d2 w2 source_tiles target_x target_y target_dir S := by
  have hload : loadQuadrants d1 source_tiles = loadQuadrants d2 source_tiles :=
    loadStep_foldl_congr d1 d2 source_tiles _ hd
  unfold create_tile composite create_tile_logs
  rw [hload, hw]

/-- Concrete instance of C4: environments that differ only away from the
inputs give the same composite result. -/
theorem composite_deterministic_witness :
    create_tile (fun p => if p = "zz" then some ⟨1, 1, fun _ _ => transparentPx⟩
        else none)
      (fun _ => true) [⟨0, 0, "a"⟩] 0 0 "tiles" 2 =
    create_tile (fun _ => none) (fun _ => true) [⟨0, 0, "a"⟩] 0 0 "tiles" 2 :=
  composite_deterministic _ _ _ _ [⟨0, 0, "a"⟩] 0 0 "tiles" 2
    (by
      intro t ht
      rw [List.mem_singleton] at ht
      subst ht
      rfl)
    rfl

/-- C5: when a supplied source tile fails to decode, `create_tile` logs a
warning naming the path, treats that quadrant as missing — when no other
supplied tile successfully fills the same slot it is filled transparent —
and still completes the composite: with a writable output it returns the
written tile.  One bad tile never turns the whole composite into an error. -/
theorem decode_failure_recovered (decode : String → Option Img)
    (writeOk : String → Bool) (source_tiles : List SourceTile)
    (target_x target_y : Int) (target_dir : String) (S : Nat)
    (t : SourceTile) (ht : t ∈ source_tiles) (hfail : decode t.path = none)
    (hwrite : writeOk (output_path target_dir target_x target_y) = true) :
    create_tile decode writeOk source_tiles target_x target_y target_dir S =
      .ok ((output_path target_dir target_x target_y,
            composite decode source_tiles S),
        create_tile_logs decode source_tiles target_x target_y target_dir S) ∧
    (⟨.warning, "image load failure " ++ t.path⟩ : LogEntry) ∈
      create_tile_logs decode source_tiles target_x target_y target_dir S ∧
    ((∀ s ∈ source_tiles, quadrantFin s.x s.y = quadrantFin t.x t.y →
        decode s.path = none) →
      fillMissing S (loadQuadrants decode source_tiles).1
        (quadrantFin t.x t.y) = imageNew S S transparentPx) := by
  refine ⟨?_, ?_, ?_⟩
  · unfold create_tile
    rw [hwrite, if_pos rfl]
  · unfold create_tile_logs
    simp only [List.mem_append]
    left
    left
    right
    exact loadStep_foldl_warn decode source_tiles _ t ht hfail
  · intro hall
    unfold fillMissing loadQuadrants
    rw [loadStep_foldl_preserve decode _ source_tiles _ hall]
    rfl

/-- Concrete instance of C5: a tile whose decode fails produces a logged
warning naming its path. -/
theorem decode_failure_recovered_witness :
    (⟨.warning, "image load failure " ++ "p"⟩ : LogEntry) ∈
      create_tile_logs (fun _ => none) [⟨0, 0, "p"⟩] 0 0 "tiles" 1 :=
  (decode_failure_recovered (fun _ => none) (fun _ => true) [⟨0, 0, "p"⟩]
    0 0 "tiles" 1 ⟨0, 0, "p"⟩ (List.mem_singleton.2 rfl) rfl rfl).2.1

/-- C8: for any entry (0-4 members, even when every member fails to
decode), `create_tile` with a writable output performs its single write at
`<target_dir>/<target_x>/<target_y>.png` — a `.png` path regardless of the
source extensions — and returns that path with the pixel buffer. -/
theorem output_contract (decode : String → Option Img)
    (writeOk : String → Bool) (source_tiles : List SourceTile)
    (target_x target_y : Int) (target_dir : String) (S : Nat)
    (hwrite : writeOk (output_path target_dir target_x target_y) = true) :
    ∃ img logs,
      create_tile decode writeOk source_tiles target_x target_y target_dir S =
        .ok ((output_path target_dir target_x target_y, img), logs) ∧
      output_path target_dir target_x target_y =
        pathJoin (pathJoin target_dir (toString target_x))
          (toString target_y ++ ".png") := by
  refine ⟨composite decode source_tiles S,
    create_tile_logs decode source_tiles target_x target_y target_dir S, ?_, rfl⟩
  unfold create_tile
  rw [hwrite, if_pos rfl]

/-- Concrete instance of C8: an entry whose only source tile fails to
decode still results in a written `.png` tile. -/
theorem output_contract_witness :
    ∃ img logs,
      create_tile (fun _ => none) (fun _ => true) [⟨7, 11, "bad"⟩] 3 5
          "tiles" 2 =
        .ok ((output_path "tiles" 3 5, img), logs) ∧
      output_path "tiles" 3 5 =
        pathJoin (pathJoin "tiles" (toString (3 : Int)))
          (toString (5 : Int) ++ ".png") :=
  output_contract (fun _ => none) (fun _ => true) [⟨7, 11, "bad"⟩] 3 5
    "tiles" 2 rfl

theorem scanTiles_foldl (s : String) (entries : List DirEntry)
    (acc : List SourceTile × List LogEntry) :
    entries.foldl
      (fun a e => (a.1 ++ (scanEntry s e).1, a.2 ++ (scanEntry s e).2)) acc =
      (acc.1 ++ (scanTiles s entries).1, acc.2 ++ (scanTiles s entries).2) := by
  induction entries generalizing acc with
  | nil => simp [scanTiles]
  | cons e es ih =>
      have h2 : scanTiles s (e :: es) =
          ((scanEntry s e).1 ++ (scanTiles s es).1,
           (scanEntry s e).2 ++ (scanTiles s es).2) := by
        show List.foldl
          (fun a e => (a.1 ++ (scanEntry s e).1, a.2 ++ (scanEntry s e).2))
          (([], []) : List SourceTile × List LogEntry) (e :: es) = _
        rw [List.foldl_cons, ih]
        simp
      rw [List.foldl_cons, ih, h2]
      simp

theorem scanTiles_cons (s : String) (e : DirEntry) (entries : List DirEntry) :
    scanTiles s (e :: entries) =
      ((scanEntry s e).1 ++ (scanTiles s entries).1,
       (scanEntry s e).2 ++ (scanTiles s entries).2) := by
  show List.foldl
    (fun a e => (a.1 ++ (scanEntry s e).1, a.2 ++ (scanEntry s e).2))
    (([], []) : List SourceTile × List LogEntry) (e :: entries) = _
  rw [List.foldl_cons, scanTiles_foldl]
  simp

/-- C9 is refuted by this input: a zoom-root entry that is not a directory
and whose name is not an integer is dropped without any log entry — the
`isdir` test at source line 118 `continue`s before the name is ever parsed,
so no warning is emitted. -/
theorem scanner_nondir_silent_counterexample :
    (scanTiles "tiles/18" [⟨"thumbs.db", false, []⟩]).1 = [] ∧
    (scanTiles "tiles/18" [⟨"thumbs.db", false, []⟩]).2 = [] :=
  ⟨rfl, rfl⟩

/-- C9 (amended): a zoom-root entry that is not a directory is skipped
silently, without any log entry; a directory entry whose name is not
parseable as an integer is skipped with a warning, and that warning appears
in the scan log of the whole level. -/
theorem scanner_skip_behavior (source_dir : String) (entries : List DirEntry) :
    (∀ e : DirEntry, e.isDir = false → scanEntry source_dir e = ([], [])) ∧
    (∀ e : DirEntry, e.isDir = true → parseName e.name = none →
      scanEntry source_dir e =
        ([], [⟨.warning, "bad directory name " ++ e.name⟩])) ∧
    (∀ e ∈ entries, e.isDir = true → parseName e.name = none →
      (⟨.warning, "bad directory name " ++ e.name⟩ : LogEntry) ∈
        (scanTiles source_dir entries).2) := by
  refine ⟨?_, ?_, ?_⟩
  · intro e he
    unfold scanEntry
    rw [he]
    rfl
  · intro e he hp
    unfold scanEntry
    rw [he, hp]
    rfl
  · intro e he hdir hp
    induction entries with
    | nil => cases he
    | cons g gs ih =>
        rw [scanTiles_cons]
        rcases List.mem_cons.1 he with rfl | hg
        · simp only [List.mem_append]
          left
          unfold scanEntry
          rw [hdir, hp]
          simp
        · simp only [List.mem_append]
          right
          exact ih hg

/-- Concrete instance of the amended C9: a directory named `abc` yields a
warning while a plain file named `junk.txt` yields nothing. -/
theorem scanner_skip_behavior_witness :
    scanEntry "tiles/18" ⟨"junk.txt", false, []⟩ = ([], []) ∧
    (⟨.warning, "bad directory name " ++ "abc"⟩ : LogEntry) ∈
      (scanTiles "tiles/18" [⟨"junk.txt", false, []⟩, ⟨"abc", true, []⟩]).2 :=
  ⟨(scanner_skip_behavior "tiles/18" []).1 ⟨"junk.txt", false, []⟩ rfl,
   (scanner_skip_behavior "tiles/18"
      [⟨"junk.txt", false, []⟩, ⟨"abc", true, []⟩]).2.2 ⟨"abc", true, []⟩
      (by decide) rfl rfl⟩

theorem scanXDir_mem (x : Int) (dirPath : String) (files : List String)
    (f : String) (hf : f ∈ files)
    (hext : strEndsWith f ".jpg" = true ∨ strEndsWith f ".png" = true)
    (y : Int) (hy : parseName (splitextStem f) = some y) :
    (⟨x, y, pathJoin dirPath f⟩ : SourceTile) ∈ (scanXDir x dirPath files).1 := by
  induction files with
  | nil => cases hf
  | cons g gs ih =>
      rcases List.mem_cons.1 hf with rfl | hg
      · unfold scanXDir
        rw [if_pos hext, hy]
        exact List.mem_cons_self _ _
      · unfold scanXDir
        by_cases hc : strEndsWith g ".jpg" = true ∨ strEndsWith g ".png" = true
        · rw [if_pos hc]
          cases hp : parseName (splitextStem g) with
          | none => exact ih hg
          | some y' => exact List.mem_cons_of_mem _ (ih hg)
        · rw [if_neg hc]
          exact ih hg

/-- C10: duplicate coordinates are reachable through the public directory
interface.  First conjunct: an x directory holding both a `.jpg` and a
`.png` file with the same integer stem yields two `SourceTile`s with the
same `(x, y)` and different paths.  Second conjunct: in the compositor
assignment loop all tiles with those coordinates hit the same quadrant
slot, and the slot ends up holding the image of the tile that appears last
in the list among those that decode successfully. -/
theorem duplicate_coordinates_reachable :
    (∀ (source_dir : String) (e : DirEntry) (x y : Int) (f1 f2 : String),
      e.isDir = true → parseName e.name = some x →
      f1 ∈ e.files → f2 ∈ e.files →
      strEndsWith f1 ".jpg" = true → strEndsWith f2 ".png" = true →
      parseName (splitextStem f1) = some y →
      parseName (splitextStem f2) = some y →
      (⟨x, y, pathJoin (pathJoin source_dir e.name) f1⟩ : SourceTile) ∈
        (scanEntry source_dir e).1 ∧
      (⟨x, y, pathJoin (pathJoin source_dir e.name) f2⟩ : SourceTile) ∈
        (scanEntry source_dir e).1) ∧
    (∀ (decode : String → Option Img) (l1 l2 : List SourceTile)
      (t : SourceTile) (img : Img), decode t.path = some img →
      (∀ s ∈ l2, quadrantFin s.x s.y = quadrantFin t.x t.y →
        decode s.path = none) →
      (loadQuadrants decode (l1 ++ t :: l2)).1 (quadrantFin t.x t.y) =
        some img) := by
  constructor
  · intro source_dir e x y f1 f2 hdir hx h1 h2 he1 he2 hy1 hy2
    unfold scanEntry
    rw [hdir, hx]
    exact ⟨scanXDir_mem x _ e.files f1 h1 (Or.inl he1) y hy1,
           scanXDir_mem x _ e.files f2 h2 (Or.inr he2) y hy2⟩
  · intro decode l1 l2 t img hdec hrest
    unfold loadQuadrants
    rw [List.foldl_append, List.foldl_cons,
      loadStep_foldl_preserve decode _ l2 _ hrest]
    simp [loadStep, hdec]

/-- Concrete instance of C10: `5.jpg` and `5.png` in directory `3` both
become tiles at `(3, 5)`, and the later, successfully decoding one owns the
slot. -/
theorem duplicate_coordinates_reachable_witness :
    ((⟨3, 5, pathJoin (pathJoin "s" "3") "5.jpg"⟩ : SourceTile) ∈
      (scanEntry "s" ⟨"3", true, ["5.jpg", "5.png"]⟩).1 ∧
     (⟨3, 5, pathJoin (pathJoin "s" "3") "5.png"⟩ : SourceTile) ∈
      (scanEntry "s" ⟨"3", true, ["5.jpg", "5.png"]⟩).1) ∧
    (loadQuadrants
        (fun p => if p = "s/3/5.png" then
          some ⟨1, 1, fun _ _ => transparentPx⟩ else none)
        ([⟨3, 5, "s/3/5.jpg"⟩] ++ (⟨3, 5, "s/3/5.png"⟩ : SourceTile) :: [])).1
      (quadrantFin 3 5) = some ⟨1, 1, fun _ _ => transparentPx⟩ :=
  ⟨duplicate_coordinates_reachable.1 "s" ⟨"3", true, ["5.jpg", "5.png"]⟩ 3 5
      "5.jpg" "5.png" rfl (by decide) (by decide) (by decide) (by decide)
      (by decide) (by decide) (by decide),
   duplicate_coordinates_reachable.2 _ [⟨3, 5, "s/3/5.jpg"⟩] []
      ⟨3, 5, "s/3/5.png"⟩ ⟨1, 1, fun _ _ => transparentPx⟩ rfl
      (fun s hs => absurd hs (List.not_mem_nil s))⟩

theorem processSeq_fs (decode : String → Option Img) (writeOk : String → Bool)
    (target_dir : String) (S : Nat)
    (entries : List ((Int × Int) × List SourceTile)) (es : List DirEntry) :
    (processSeq decode writeOk target_dir S entries es).1 =
      entries.foldl (taskEffect decode writeOk target_dir S) es := by
  induction entries generalizing es with
  | nil => rfl
  | cons entry rest ih =>
      rw [List.foldl_cons]
      unfold processSeq
      cases h : create_tile decode writeOk entry.2 entry.1.1 entry.1.2 target_dir S with
      | ok p => exact ih _
      | error msg => exact ih _

theorem processPool_fs (decode : String → Option Img) (writeOk : String → Bool)
    (target_dir : String) (S : Nat)
    (entries : List ((Int × Int) × List SourceTile)) (es : List DirEntry) :
    (processPool decode writeOk target_dir S entries es).1 =
      entries.foldl (taskEffect decode writeOk target_dir S) es := by
  induction entries generalizing es with
  | nil => rfl
  | cons entry rest ih =>
      rw [List.foldl_cons]
      unfold processPool
      cases h : create_tile decode writeOk entry.2 entry.1.1 entry.1.2 target_dir S with
      | ok p => exact ih _
      | error msg => exact ih _

theorem processSeq_err_mem (decode : String → Option Img) (writeOk : String → Bool)
    (target_dir : String) (S : Nat)
    (entries : List ((Int × Int) × List SourceTile)) (es : List DirEntry)
    (entry : (Int × Int) × List SourceTile) (msg : String)
    (he : entry ∈ entries)
    (herr : create_tile decode writeOk entry.2 entry.1.1 entry.1.2 target_dir S =
      .error msg) :
    (⟨.error, "tile " ++ toString entry.1.1 ++ "/" ++ toString entry.1.2 ++
       " generation error: " ++ msg⟩ : LogEntry) ∈
      (processSeq decode writeOk target_dir S entries es).2 := by
  induction entries generalizing es with
  | nil => cases he
  | cons first rest ih =>
      unfold processSeq
      rcases List.mem_cons.1 he with rfl | hrest
      · rw [herr]
        exact List.mem_cons_self _ _
      · cases h : create_tile decode writeOk first.2 first.1.1 first.1.2 target_dir S with
        | ok p => exact List.mem_append_right _ (ih _ hrest)
        | error m => exact List.mem_cons_of_mem _ (ih _ hrest)

theorem processPool_err_mem (decode : String → Option Img) (writeOk : String → Bool)
    (target_dir : String) (S : Nat)
    (entries : List ((Int × Int) × List SourceTile)) (es : List DirEntry)
    (entry : (Int × Int) × List SourceTile) (msg : String)
    (he : entry ∈ entries)
    (herr : create_tile decode writeOk entry.2 entry.1.1 entry.1.2 target_dir S =
      .error msg) :
    (⟨.error, "tile generation error: " ++ msg⟩ : LogEntry) ∈
      (processPool decode writeOk target_dir S entries es).2 := by
  induction entries generalizing es with
  | nil => cases he
  | cons first rest ih =>
      unfold processPool
      rcases List.mem_cons.1 he with rfl | hrest
      · rw [herr]
        exact List.mem_cons_self _ _
      · cases h : create_tile decode writeOk first.2 first.1.1 first.1.2 target_dir S with
        | ok p => exact List.mem_append_right _ (ih _ hrest)
        | error m => exact List.mem_cons_of_mem _ (ih _ hrest)

theorem hasFile_mkXDir (es : List DirEntry) (xN x f : String)
    (h : hasFile es x f) : hasFile (mkXDir es xN) x f := by
  obtain ⟨e, he, h1, h2, h3⟩ := h
  unfold mkXDir
  by_cases hc : es.any (fun e => e.name = xN) = true
  · rw [if_pos hc]
    exact ⟨e, he, h1, h2, h3⟩
  · rw [if_neg hc]
    exact ⟨e, List.mem_append_left _ he, h1, h2, h3⟩

theorem hasFile_putFile (es : List DirEntry) (xN fN x f : String)
    (h : hasFile es x f) : hasFile (putFile es xN fN) x f := by
  obtain ⟨e, he, h1, h2, h3⟩ := h
  unfold putFile
  by_cases hc : e.name = xN ∧ e.isDir = true
  · refine ⟨⟨e.name, e.isDir,
      if fN ∈ e.files then e.files else e.files ++ [fN]⟩,
      List.mem_map.2 ⟨e, he, by rw [if_pos hc]⟩, h1, h2, ?_⟩
    by_cases hf : fN ∈ e.files
    · rw [if_pos hf]
      exact h3
    · rw [if_neg hf]
      exact List.mem_append_left _ h3
  · exact ⟨e, List.mem_map.2 ⟨e, he, by rw [if_neg hc]⟩, h1, h2, h3⟩

theorem hasFile_taskEffect (decode : String → Option Img) (writeOk : String → Bool)
    (target_dir : String) (S : Nat) (es : List DirEntry)
    (entry : (Int × Int) × List SourceTile) (x f : String)
    (h : hasFile es x f) :
    hasFile (taskEffect decode writeOk target_dir S es entry) x f := by
  unfold taskEffect
  cases hc : create_tile decode writeOk entry.2 entry.1.1 entry.1.2 target_dir S with
  | ok p => exact hasFile_putFile _ _ _ _ _ (hasFile_mkXDir _ _ _ _ h)
  | error m => exact hasFile_mkXDir _ _ _ _ h

theorem hasFile_foldl (decode : String → Option Img) (writeOk : String → Bool)
    (target_dir : String) (S : Nat)
    (entries : List ((Int × Int) × List SourceTile)) (es : List DirEntry)
    (x f : String) (h : hasFile es x f) :
    hasFile (entries.foldl (taskEffect decode writeOk target_dir S) es) x f := by
  induction entries generalizing es with
  | nil => exact h
  | cons entry rest ih =>
      rw [List.foldl_cons]
      exact ih _ (hasFile_taskEffect _ _ _ _ _ _ _ _ h)

theorem dirs_taskEffect (decode : String → Option Img) (writeOk : String → Bool)
    (target_dir : String) (S : Nat) (es : List DirEntry)
    (entry : (Int × Int) × List SourceTile)
    (h : ∀ e ∈ es, e.isDir = true) :
    ∀ e ∈ taskEffect decode writeOk target_dir S es entry, e.isDir = true := by
  have hmk : ∀ e ∈ mkXDir es (toString entry.1.1), e.isDir = true := by
    unfold mkXDir
    by_cases hc : es.any (fun e => e.name = toString entry.1.1) = true
    · rw [if_pos hc]
      exact h
    · rw [if_neg hc]
      intro e he
      rcases List.mem_append.1 he with he | he
      · exact h e he
      · rw [List.mem_singleton.1 he]
  unfold taskEffect
  cases hc : create_tile decode writeOk entry.2 entry.1.1 entry.1.2 target_dir S with
  | error m => exact hmk
  | ok p =>
      unfold putFile
      intro e he
      obtain ⟨e0, he0, hmap⟩ := List.mem_map.1 he
      by_cases hcond : e0.name = toString entry.1.1 ∧ e0.isDir = true
      · rw [if_pos hcond] at hmap
        rw [← hmap]
        exact hcond.2
      · rw [if_neg hcond] at hmap
        rw [← hmap]
        exact hmk e0 he0

theorem dirs_foldl (decode : String → Option Img) (writeOk : String → Bool)
    (target_dir : String) (S : Nat)
    (entries : List ((Int × Int) × List SourceTile)) (es : List DirEntry)
    (h : ∀ e ∈ es, e.isDir = true) :
    ∀ e ∈ entries.foldl (taskEffect decode writeOk target_dir S) es,
      e.isDir = true := by
  induction entries generalizing es with
  | nil => exact h
  | cons entry rest ih =>
      rw [List.foldl_cons]
      exact ih _ (dirs_taskEffect _ _ _ _ _ _ h)

theorem taskEffect_self (decode : String → Option Img) (writeOk : String → Bool)
    (target_dir : String) (S : Nat) (es : List DirEntry)
    (entry : (Int × Int) × List SourceTile)
    (hdirs : ∀ e ∈ es, e.isDir = true)
    (p : (String × Img) × List LogEntry)
    (hok : create_tile decode writeOk entry.2 entry.1.1 entry.1.2 target_dir S =
      .ok p) :
    hasFile (taskEffect decode writeOk target_dir S es entry)
      (toString entry.1.1) (toString entry.1.2 ++ ".png") := by
  unfold taskEffect
  rw [hok]
  have hex : ∃ e ∈ mkXDir es (toString entry.1.1),
      e.name = toString entry.1.1 ∧ e.isDir = true := by
    unfold mkXDir
    by_cases hc : es.any (fun e => e.name = toString entry.1.1) = true
    · rw [if_pos hc]
      obtain ⟨e, he, hname⟩ := List.any_eq_true.1 hc
      exact ⟨e, he, of_decide_eq_true hname, hdirs e he⟩
    · rw [if_neg hc]
      exact ⟨⟨toString entry.1.1, true, []⟩,
        List.mem_append_right _ (List.mem_singleton.2 rfl), rfl, rfl⟩
  obtain ⟨e, he, hname, hdir⟩ := hex
  unfold putFile
  refine ⟨⟨e.name, e.isDir,
    if (toString entry.1.2 ++ ".png") ∈ e.files then e.files
    else e.files ++ [toString entry.1.2 ++ ".png"]⟩,
    List.mem_map.2 ⟨e, he, by rw [if_pos ⟨hname, hdir⟩]⟩, hname, hdir, ?_⟩
  by_cases hf : (toString entry.1.2 ++ ".png") ∈ e.files
  · rw [if_pos hf]
    exact hf
  · rw [if_neg hf]
    exact List.mem_append_right _ (List.mem_singleton.2 rfl)

/-- C7: a failing compositor task within one level is isolated, in both the
sequential and the worker-pool branch.  The filesystem effect of either
branch is the full left fold of the per-task effects (no failure cancels
the remaining tasks); a task whose `create_tile` raises contributes a
per-tile error log entry; and every task whose `create_tile` succeeds has
its tile file present in the final directory listing regardless of the
failures of the other tasks. -/
theorem per_tile_failure_isolated (decode : String → Option Img)
    (writeOk : String → Bool) (target_dir : String) (S : Nat)
    (entries : List ((Int × Int) × List SourceTile)) (es : List DirEntry)
    (hdirs : ∀ e ∈ es, e.isDir = true) :
    (processSeq decode writeOk target_dir S entries es).1 =
      entries.foldl (taskEffect decode writeOk target_dir S) es ∧
    (processPool decode writeOk target_dir S entries es).1 =
      entries.foldl (taskEffect decode writeOk target_dir S) es ∧
    (∀ entry ∈ entries, ∀ msg,
      create_tile decode writeOk entry.2 entry.1.1 entry.1.2 target_dir S =
        .error msg →
      (⟨.error, "tile " ++ toString entry.1.1 ++ "/" ++ toString entry.1.2 ++
         " generation error: " ++ msg⟩ : LogEntry) ∈
        (processSeq decode writeOk target_dir S entries es).2 ∧
      (⟨.error, "tile generation error: " ++ msg⟩ : LogEntry) ∈
        (processPool decode writeOk target_dir S entries es).2) ∧
    (∀ entry ∈ entries, ∀ p,
      create_tile decode writeOk entry.2 entry.1.1 entry.1.2 target_dir S =
        .ok p →
      hasFile (processSeq decode writeOk target_dir S entries es).1
        (toString entry.1.1) (toString entry.1.2 ++ ".png") ∧
      hasFile (processPool decode writeOk target_dir S entries es).1
        (toString entry.1.1) (toString entry.1.2 ++ ".png")) := by
  refine ⟨processSeq_fs decode writeOk target_dir S entries es,
    processPool_fs decode writeOk target_dir S entries es, ?_, ?_⟩
  · intro entry he msg herr
    exact ⟨processSeq_err_mem decode writeOk target_dir S entries es entry msg
        he herr,
      processPool_err_mem decode writeOk target_dir S entries es entry msg
        he herr⟩
  · intro entry he p hok
    have hfold : hasFile
        (entries.foldl (taskEffect decode writeOk target_dir S) es)
        (toString entry.1.1) (toString entry.1.2 ++ ".png") := by
      obtain ⟨pre, post, rfl⟩ := List.append_of_mem he
      rw [List.foldl_append, List.foldl_cons]
      refine hasFile_foldl decode writeOk target_dir S post _ _ _ ?_
      exact taskEffect_self decode writeOk target_dir S _ entry
        (dirs_foldl decode writeOk target_dir S pre es hdirs) p hok
    rw [processSeq_fs decode writeOk target_dir S entries es,
      processPool_fs decode writeOk target_dir S entries es]
    exact ⟨hfold, hfold⟩

/-- Concrete instance of C7: of two tasks, the one whose save fails is
logged as a per-tile error while the file of the other is still written, in both
branches. -/
theorem per_tile_failure_isolated_witness :
    ((⟨.error, "tile " ++ toString (0 : Int) ++ "/" ++ toString (0 : Int) ++
        " generation error: " ++ ("save failure " ++ output_path "t" 0 0)⟩ :
        LogEntry) ∈
      (processSeq (fun _ => none)
        (fun pth => if pth = output_path "t" 0 0 then false else true)
        "t" 256 [((0, 0), []), ((1, 1), [])] []).2) ∧
    hasFile (processSeq (fun _ => none)
        (fun pth => if pth = output_path "t" 0 0 then false else true)
        "t" 256 [((0, 0), []), ((1, 1), [])] []).1
      (toString (1 : Int)) (toString (1 : Int) ++ ".png") :=
  ⟨((per_tile_failure_isolated (fun _ => none)
      (fun pth => if pth = output_path "t" 0 0 then false else true)
      "t" 256 [((0, 0), []), ((1, 1), [])] []
      (fun e he => absurd he (List.not_mem_nil e))).2.2.1
      ((0, 0), []) (List.mem_cons_self _ _)
      ("save failure " ++ output_path "t" 0 0) rfl).1,
   ((per_tile_failure_isolated (fun _ => none)
      (fun pth => if pth = output_path "t" 0 0 then false else true)
      "t" 256 [((0, 0), []), ((1, 1), [])] []
      (fun e he => absurd he (List.not_mem_nil e))).2.2.2
      ((1, 1), []) (List.mem_cons_of_mem _ (List.mem_cons_self _ _))
      ((output_path "t" 1 1, composite (fun _ => none) [] 256),
        create_tile_logs (fun _ => none) [] 1 1 "t" 256) rfl).1⟩

/-- C6: exit behavior of the level loop.  A level whose source zoom
directory is missing exits at once with status 1 and a logged error, the
remaining levels never running; likewise a level whose scan yields zero
tiles; an empty level list exits 0; a completed level hands control to the
remaining levels, so the run exits 0 exactly when every level completes.
The last conjunct ties `create_lower_zoom_tiles` to the loop. -/
theorem fatal_level_exit (decode : String → Option Img) (writeOk : String → Bool)
    (workers : Nat) (tiles_dir : String) :
    (∀ (fs : FS) (z : Int) (rest : List Int),
      lookupFS (ensureZoomDir fs z) (z + 1) = none →
      run_zooms decode writeOk workers tiles_dir fs (z :: rest) =
        (1, ensureZoomDir fs z,
         [⟨.info, "generating zoom " ++ toString z⟩,
          ⟨.error, "source directory not found " ++
            pathJoin tiles_dir (toString (z + 1))⟩])) ∧
    (∀ (fs : FS) (z : Int) (rest : List Int) (entries : List DirEntry),
      lookupFS (ensureZoomDir fs z) (z + 1) = some entries →
      (scanTiles (pathJoin tiles_dir (toString (z + 1))) entries).1 = [] →
      run_zooms decode writeOk workers tiles_dir fs (z :: rest) =
        (1, ensureZoomDir fs z,
         [⟨.info, "generating zoom " ++ toString z⟩] ++
         (scanTiles (pathJoin tiles_dir (toString (z + 1))) entries).2 ++
         [⟨.info, "total source tiles " ++
            toString (scanTiles (pathJoin tiles_dir (toString (z + 1))) entries).1.length⟩,
          ⟨.error, "no tiles at zoom " ++ toString (z + 1)⟩])) ∧
    (∀ fs : FS, run_zooms decode writeOk workers tiles_dir fs [] = (0, fs, [])) ∧
    (∀ (fs : FS) (z : Int) (rest : List Int) (fl : FS × List LogEntry),
      run_level decode writeOk workers tiles_dir fs z = .ok fl →
      run_zooms decode writeOk workers tiles_dir fs (z :: rest) =
        ((run_zooms decode writeOk workers tiles_dir fl.1 rest).1,
         (run_zooms decode writeOk workers tiles_dir fl.1 rest).2.1,
         fl.2 ++ (run_zooms decode writeOk workers tiles_dir fl.1 rest).2.2)) ∧
    (∀ (fs : FS) (source_zoom dest_zoom_min : Int),
      create_lower_zoom_tiles decode writeOk source_zoom dest_zoom_min
          tiles_dir workers fs =
        run_zooms decode writeOk workers tiles_dir fs
          (zoom_range source_zoom dest_zoom_min)) := by
  refine ⟨?_, ?_, fun fs => rfl, ?_, fun fs sz dz => rfl⟩
  · intro fs z rest h
    unfold run_zooms run_level
    rw [h]
  · intro fs z rest entries h1 h2
    have hcond : (scanTiles (pathJoin tiles_dir (toString (z + 1)))
        entries).1.isEmpty = true := by
      rw [h2]
      rfl
    simp only [run_zooms]
    unfold run_level
    rw [h1]
    dsimp only
    unfold run_level_scanned
    rw [if_pos hcond]
  · intro fs z rest fl h
    simp only [run_zooms]
    rw [h]

/-- Concrete instance of C6: on an empty tile tree the source
directory is missing and the run exits with status 1. -/
theorem fatal_level_exit_witness :
    (create_lower_zoom_tiles (fun _ => none) (fun _ => true) 18 17 "t" 1 []).1
      = 1 := by
  rw [(fatal_level_exit (fun _ => none) (fun _ => true) 1 "t").2.2.2.2 [] 18 17]
  have hz : zoom_range 18 17 = [17] := by decide
  rw [hz, (fatal_level_exit (fun _ => none) (fun _ => true) 1 "t").1 [] 17 [] rfl]

end Downscale
